import Mathlib

/-!
Verification of the stamped-value store, configuration-backend selector
discipline and schema-upgrade hostname normalization of the Kea DHCP
repository, against its natural-language specification.

The C++ sources are shallowly embedded as executable Lean definitions:

* `src/unnamed/part_001` (`isc::data::StampedValue`) becomes the
  `Kea.StampedValue` structure together with `create`, `getType`,
  `getValue`, `getSignedIntegerValue`, `getBoolValue`, `getDoubleValue`,
  `validateConstruct`, `validateAccess` and `toElement`.
* `boost::lexical_cast` between strings and `int64_t` / `double` becomes
  the executable `Kea.intLexical` / `Kea.strToInt64` and
  `Kea.doubleLexical` / `Kea.strToDouble` functions.  Double values are
  modelled exactly, as scaled decimal integers (`Kea.DoubleVal`): the
  lexical grammar of `operator>>(double)` is decimal, so the values the
  store can ever observe are decimal rationals, which this type
  represents without rounding.
* `src/src/hooks/dhcp/mysql_cb/mysql_cb_dhcp6.h` declares
  `createUpdateSubnet6`; its implementation is not part of the source
  extract, so it is modelled from the specification (see the doc comment
  on `Kea.createUpdateSubnet6`).
* `src/src/share/database/scripts/cql/upgrade_4.0_to_5.0.sh.in` becomes
  the row-processing folds `Kea.update_host_data`,
  `Kea.update_lease4_data` and `Kea.update_lease6_data`.
-/

namespace Kea

/-- Exception kinds thrown by the embedded code (isc exception classes). -/
inductive KeaError where
  | badValue
  | typeError
  | invalidOperation
  | notImplemented
deriving DecidableEq, Repr

/-- The `Element::types` enum of `isc::data` (cc/data.h). -/
inductive ElemType where
  | integer
  | real
  | boolean
  | nullType
  | string
  | listType
  | mapType
deriving DecidableEq, Repr

/-- The four primitive types accepted by `StampedValue::validateConstruct`. -/
def ElemType.isPrimitive : ElemType → Bool
  | .string => true
  | .integer => true
  | .boolean => true
  | .real => true
  | _ => false

/-- Exact model of a C++ `double` value as observed through the lexical
conversions used by `StampedValue`: the value `mant * 10 ^ (-frac)`.
The decimal lexical grammar of `boost::lexical_cast<double>` only ever
produces decimal rationals, which this type represents exactly. -/
structure DoubleVal where
  mant : Int
  frac : Nat
deriving DecidableEq, Repr

/-- Model of `isc::data::Element`.  The payloads of list, map and null
elements are irrelevant to every claim, so those constructors are bare. -/
inductive Element where
  | str (s : String)
  | int (i : Int)
  | bool (b : Bool)
  | real (d : DoubleVal)
  | listE
  | mapE
  | nullE
deriving DecidableEq, Repr

/-- The `Element::getType()` projection. -/
def Element.typeOf : Element → ElemType
  | .str _ => .string
  | .int _ => .integer
  | .bool _ => .boolean
  | .real _ => .real
  | .listE => .listType
  | .mapE => .mapType
  | .nullE => .nullType

/-! ### Decimal lexical conversions (model of `boost::lexical_cast`) -/

/-- Character of a decimal digit (value below 10). -/
def digitToChar (d : Nat) : Char := Char.ofNat (48 + d)

/-- Digit value of a character, `none` for non-digits. -/
def charToDigit (c : Char) : Option Nat :=
  if 48 ≤ c.toNat ∧ c.toNat ≤ 57 then some (c.toNat - 48) else none

/-- Little-endian decimal digits of `n`, computed with explicit fuel so
the definition is structurally recursive (and kernel-reducible). -/
def natDigitsAux : Nat → Nat → List Nat
  | 0, _ => []
  | fuel + 1, n => if n = 0 then [] else n % 10 :: natDigitsAux fuel (n / 10)

/-- Big-endian decimal digits of `n`; `0` is rendered as the digit `0`. -/
def natLexDigits (n : Nat) : List Nat :=
  if n = 0 then [0] else (natDigitsAux n n).reverse

/-- Value of a little-endian digit list. -/
def littleVal : List Nat → Nat
  | [] => 0
  | d :: ds => d + 10 * littleVal ds

/-- Value of a big-endian digit list. -/
def digitsVal (ds : List Nat) : Nat :=
  ds.foldl (fun acc d => acc * 10 + d) 0

/-- Longest digit run at the head of a character list, plus the rest. -/
def takeDigits : List Char → List Nat × List Char
  | [] => ([], [])
  | c :: rest =>
    match charToDigit c with
    | some d =>
      let p := takeDigits rest
      (d :: p.1, p.2)
    | none => ([], c :: rest)

/-- A character list that does not start with a decimal digit. -/
def noDigitHead : List Char → Prop
  | [] => True
  | c :: _ => charToDigit c = none

/-- Optional leading sign, as accepted by `std::num_get`. -/
def parseSign (l : List Char) : Bool × List Char :=
  match l with
  | [] => (false, [])
  | c :: rest =>
    if c = '-' then (true, rest)
    else if c = '+' then (false, rest)
    else (false, l)

/-- Characters of the decimal rendering of an `Int`
(`boost::lexical_cast<std::string>(int64_t)`). -/
def intLexChars (i : Int) : List Char :=
  (if i < 0 then ['-'] else []) ++ (natLexDigits i.natAbs).map digitToChar

/-- Model of `boost::lexical_cast<std::string>(int64_t)`: this direction
of the cast is total. -/
def intLexical (i : Int) : String := String.mk (intLexChars i)

/-- Model of `boost::lexical_cast<int64_t>(std::string)`: optional sign,
a non-empty digit run consuming the whole string, range-checked against
`int64_t`; `none` models the thrown `bad_lexical_cast`. -/
def strToInt64 (s : String) : Option Int :=
  let p1 := parseSign s.toList
  let p2 := takeDigits p1.2
  if p2.1 = [] ∨ p2.2 ≠ [] then none
  else
    let v : Int := if p1.1 then -(digitsVal p2.1 : Int) else (digitsVal p2.1 : Int)
    if -(2 ^ 63) ≤ v ∧ v < 2 ^ 63 then some v else none

/-- Strip trailing decimal zeros from a scaled decimal `m * 10 ^ (-k)`,
structurally on `k`. -/
def normAux : Int → Nat → DoubleVal
  | m, 0 => ⟨m, 0⟩
  | m, k + 1 => if m % 10 = 0 then normAux (m / 10) k else ⟨m, k + 1⟩

/-- Canonical form of a `DoubleVal` (no trailing zero in the fraction). -/
def DoubleVal.normalize (d : DoubleVal) : DoubleVal := normAux d.mant d.frac

/-- A `DoubleVal` with no trailing zero in its fraction part. -/
def DoubleVal.normalized (d : DoubleVal) : Prop := d.frac = 0 ∨ d.mant % 10 ≠ 0

/-- Little-endian digits of `r`, zero-padded to exactly `k` digits. -/
def padDigitsAux : Nat → Nat → List Nat
  | 0, _ => []
  | k + 1, r => r % 10 :: padDigitsAux k (r / 10)

/-- Big-endian digits of `r`, zero-padded to exactly `k` digits. -/
def padDigits (k r : Nat) : List Nat := (padDigitsAux k r).reverse

/-- Characters of the canonical decimal rendering of a normalized
`DoubleVal`: sign, integer part, and (when the fraction is non-empty)
a point followed by the zero-padded fraction digits. -/
def renderChars (p : DoubleVal) : List Char :=
  let n := p.mant.natAbs
  (if p.mant < 0 then ['-'] else []) ++
    (if p.frac = 0 then (natLexDigits n).map digitToChar
     else (natLexDigits (n / 10 ^ p.frac)).map digitToChar ++
       '.' :: (padDigits p.frac (n % 10 ^ p.frac)).map digitToChar)

/-- Model of `boost::lexical_cast<std::string>(double)`: the canonical
rendering of the (normalized) value; this direction of the cast is
total. -/
def doubleLexical (d : DoubleVal) : String := String.mk (renderChars d.normalize)

/-- Exponent part of a floating literal, after the `e`/`E` marker. -/
def parseExp (l : List Char) : Option Int :=
  let p1 := parseSign l
  let p2 := takeDigits p1.2
  if p2.1 = [] ∨ p2.2 ≠ [] then none
  else some (if p1.1 then -(digitsVal p2.1 : Int) else (digitsVal p2.1 : Int))

/-- Scale the parsed mantissa `m` by `10 ^ (-k0)` and normalize. -/
def scaleNorm (m : Int) (k0 : Int) : DoubleVal :=
  if k0 ≤ 0 then ⟨m * 10 ^ (-k0).toNat, 0⟩ else normAux m k0.toNat

/-- Model of `boost::lexical_cast<double>(std::string)`: optional sign,
integer digits, optional point and fraction digits (at least one digit
overall), optional exponent part, consuming the whole string; `none`
models the thrown `bad_lexical_cast`. -/
def strToDouble (s : String) : Option DoubleVal :=
  let p1 := parseSign s.toList
  let pi := takeDigits p1.2
  let pf : List Nat × List Char :=
    match pi.2 with
    | '.' :: rest => takeDigits rest
    | _ => ([], pi.2)
  if pi.1 = [] ∧ pf.1 = [] then none
  else
    let m : Int := if p1.1 then -(digitsVal (pi.1 ++ pf.1) : Int)
                   else (digitsVal (pi.1 ++ pf.1) : Int)
    match pf.2 with
    | [] => some (scaleNorm m (pf.1.length : Int))
    | c :: rest =>
      if c = 'e' ∨ c = 'E' then
        match parseExp rest with
        | some ev => some (scaleNorm m ((pf.1.length : Int) - ev))
        | none => none
      else none

/-! ### The StampedValue class (src/unnamed/part_001) -/

/-- `isc::data::StampedValue`: a named value (`ElementPtr value_`,
possibly null, modelled as `Option Element`).  The `StampedElement`
timestamp base is irrelevant to every claim and is omitted. -/
structure StampedValue where
  name : String
  value : Option Element
deriving DecidableEq, Repr

/-- `StampedValue::validateConstruct`: `BadValue` on a null value,
`TypeError` when the value is not one of the four primitive types. -/
def StampedValue.validateConstruct (value : Option Element) :
    Except KeaError Unit :=
  match value with
  | none => Except.error KeaError.badValue
  | some e =>
    if e.typeOf.isPrimitive then Except.ok () else Except.error KeaError.typeError

/-- `StampedValue::create(name, ElementPtr)`: constructs and validates. -/
def StampedValue.create (name : String) (value : Option Element) :
    Except KeaError StampedValue :=
  match StampedValue.validateConstruct value with
  | Except.error e => Except.error e
  | Except.ok _ => Except.ok ⟨name, value⟩

/-- `StampedValue::create(name)`: the one-argument factory stores a null
value and performs no validation, so it never throws. -/
def StampedValue.createNameOnly (name : String) : Except KeaError StampedValue :=
  Except.ok ⟨name, none⟩

/-- `StampedValue::getType`: `InvalidOperation` on a null value,
otherwise the stored element's type. -/
def StampedValue.getType (v : StampedValue) : Except KeaError ElemType :=
  match v.value with
  | none => Except.error KeaError.invalidOperation
  | some e => Except.ok e.typeOf

/-- `StampedValue::validateAccess`: `InvalidOperation` on a null value;
`TypeError` when the requested type is neither `string` nor the stored
type. -/
def StampedValue.validateAccess (v : StampedValue) (t : ElemType) :
    Except KeaError Unit :=
  match v.value with
  | none => Except.error KeaError.invalidOperation
  | some e =>
    if t ≠ ElemType.string ∧ t ≠ e.typeOf then Except.error KeaError.typeError
    else Except.ok ()

/-- `StampedValue::getValue`: textual form of the stored value.  The
string-producing `boost::lexical_cast` calls are total, so the
`bad_lexical_cast` handler of the source has no counterpart here; the
switch default (`TypeError`, "impossible condition") is kept. -/
def StampedValue.getValue (v : StampedValue) : Except KeaError String :=
  match v.validateAccess ElemType.string with
  | Except.error err => Except.error err
  | Except.ok _ =>
    match v.value with
    | none => Except.error KeaError.invalidOperation
    | some (Element.str s) => Except.ok s
    | some (Element.int i) => Except.ok (intLexical i)
    | some (Element.bool b) => Except.ok (if b then "1" else "0")
    | some (Element.real d) => Except.ok (doubleLexical d)
    | some _ => Except.error KeaError.typeError

/-- `StampedValue::getSignedIntegerValue`. -/
def StampedValue.getSignedIntegerValue (v : StampedValue) : Except KeaError Int :=
  match v.validateAccess ElemType.integer with
  | Except.error err => Except.error err
  | Except.ok _ =>
    match v.value with
    | some (Element.int i) => Except.ok i
    | _ => Except.error KeaError.typeError

/-- `StampedValue::getBoolValue`. -/
def StampedValue.getBoolValue (v : StampedValue) : Except KeaError Bool :=
  match v.validateAccess ElemType.boolean with
  | Except.error err => Except.error err
  | Except.ok _ =>
    match v.value with
    | some (Element.bool b) => Except.ok b
    | _ => Except.error KeaError.typeError

/-- `StampedValue::getDoubleValue`. -/
def StampedValue.getDoubleValue (v : StampedValue) : Except KeaError DoubleVal :=
  match v.validateAccess ElemType.real with
  | Except.error err => Except.error err
  | Except.ok _ =>
    match v.value with
    | some (Element.real d) => Except.ok d
    | _ => Except.error KeaError.typeError

/-- `StampedValue::toElement`: parses the stored value's textual form
(`value_` is used as a string throughout the source function; its
textual form is exactly what `getValue` computes) into the requested
primitive; `BadValue` on lexical failure and on a non-primitive
requested type (the switch default). -/
def StampedValue.toElement (v : StampedValue) (t : ElemType) :
    Except KeaError Element :=
  match v.getValue with
  | Except.error err => Except.error err
  | Except.ok s =>
    match t with
    | ElemType.string => Except.ok (Element.str s)
    | ElemType.integer =>
      match strToInt64 s with
      | some i => Except.ok (Element.int i)
      | none => Except.error KeaError.badValue
    | ElemType.boolean =>
      if s = "true" then Except.ok (Element.bool true)
      else if s = "false" then Except.ok (Element.bool false)
      else Except.error KeaError.badValue
    | ElemType.real =>
      match strToDouble s with
      | some d => Except.ok (Element.real d)
      | none => Except.error KeaError.badValue
    | _ => Except.error KeaError.badValue

/-- The round-trip property of the specification, at a requested type
`t`: `to_element` succeeds, a `StampedValue` can be constructed from the
produced element (`StampedValue.from_element` of the spec, realized by
`create`), and converting back yields the same element. -/
def roundTrips (v : StampedValue) (t : ElemType) : Prop :=
  ∃ e, v.toElement t = Except.ok e ∧
    ∃ w, StampedValue.create v.name (some e) = Except.ok w ∧
      w.toElement t = Except.ok e

/-! ### Configuration backend selector discipline (mysql_cb_dhcp6) -/

/-- `db::ServerSelector`: a tagged value scoping reads and writes. -/
inductive ServerSelector where
  | unassigned
  | allServers
  | oneServer (tag : String)
  | multipleServers (tags : List String)
  | anyServer
deriving DecidableEq, Repr

/-- A DHCPv6 subnet, reduced to its upsert key; the remaining fields are
irrelevant to the selector-discipline claim. -/
structure Subnet6 where
  subnetId : Nat
deriving DecidableEq, Repr

/-- Modelled from the spec: the body of
`MySqlConfigBackendDHCPv6::createUpdateSubnet6` is not part of the
source extract (only its declaration in `mysql_cb_dhcp6.h`, whose doc
comment states "@throw NotImplemented if server selector is
unassigned").  Per the spec, operations receiving UNASSIGNED fail with
`NotImplemented`, and `create_update_<entity>` is otherwise
upsert-by-key. -/
def createUpdateSubnet6 (selector : ServerSelector) (subnet : Subnet6)
    (state : List Subnet6) : Except KeaError (List Subnet6) :=
  match selector with
  | ServerSelector.unassigned => Except.error KeaError.notImplemented
  | _ => Except.ok (subnet :: state.filter (fun s => !(s.subnetId == subnet.subnetId)))

/-! ### CQL 4.0 → 5.0 upgrade script (hostname lowercasing) -/

/-- One row of the `COPY hosts (key, id, hostname)` export. -/
structure HostRow where
  key : String
  hostId : String
  hostname : String
deriving DecidableEq, Repr

/-- One row of a `COPY leaseN (address, hostname)` export. -/
structure LeaseRow where
  address : String
  hostname : String
deriving DecidableEq, Repr

/-- The `tr [:upper:] [:lower:]` pipeline of the script (ASCII). -/
def lowerHostname (s : String) : String := String.map Char.toLower s

/-- The update statement the script emits for one host row. -/
def mkHostUpdate (r : HostRow) : String :=
  "update hosts set lower_case_hostname = \x27" ++ lowerHostname r.hostname ++
    "\x27 where key = " ++ r.key ++ " and id = " ++ r.hostId ++ ";"

/-- The update statement the script emits for one lease4 row. -/
def mkLease4Update (r : LeaseRow) : String :=
  "update lease4 set hostname = \x27" ++ lowerHostname r.hostname ++
    "\x27 where address = " ++ r.address ++ ";"

/-- The update statement the script emits for one lease6 row. -/
def mkLease6Update (r : LeaseRow) : String :=
  "update lease6 set hostname = \x27" ++ lowerHostname r.hostname ++
    "\x27 where address = " ++ r.address ++ ";"

/-- Accumulator of one export-processing loop: the `line_cnt` and
`update_cnt` counters and the contents of the update file. -/
structure UpdState where
  lineCnt : Nat
  updateCnt : Nat
  stmts : List String
deriving DecidableEq, Repr

/-- Body of the `while read` loop: bump `line_cnt`; when the hostname is
non-empty, append one update statement and bump `update_cnt`. -/
def updStep (mk : ρ → String) (hostnameOf : ρ → String) (st : UpdState) (r : ρ) :
    UpdState :=
  let st := { st with lineCnt := st.lineCnt + 1 }
  if hostnameOf r ≠ "" then
    { st with stmts := st.stmts ++ [mk r], updateCnt := st.updateCnt + 1 }
  else st

/-- The row-processing loop of `update_host_data`. -/
def update_host_data (rows : List HostRow) : UpdState :=
  rows.foldl (updStep mkHostUpdate HostRow.hostname) ⟨0, 0, []⟩

/-- The row-processing loop of `update_lease4_data`. -/
def update_lease4_data (rows : List LeaseRow) : UpdState :=
  rows.foldl (updStep mkLease4Update LeaseRow.hostname) ⟨0, 0, []⟩

/-- The row-processing loop of `update_lease6_data`. -/
def update_lease6_data (rows : List LeaseRow) : UpdState :=
  rows.foldl (updStep mkLease6Update LeaseRow.hostname) ⟨0, 0, []⟩

/-! ### Helper lemmas on the decimal lexical functions -/

theorem charToDigit_digitToChar (d : Nat) (h : d < 10) :
    charToDigit (digitToChar d) = some d := by
  interval_cases d <;> decide

theorem takeDigits_of_noDigitHead (l : List Char) (h : noDigitHead l) :
    takeDigits l = ([], l) := by
  cases l with
  | nil => rfl
  | cons c rest =>
    simp only [noDigitHead] at h
    simp [takeDigits, h]

theorem takeDigits_append (ds : List Nat) (rest : List Char)
    (hd : ∀ d ∈ ds, d < 10) (h : noDigitHead rest) :
    takeDigits (ds.map digitToChar ++ rest) = (ds, rest) := by
  induction ds with
  | nil => simpa using takeDigits_of_noDigitHead rest h
  | cons d ds ih =>
    have hdlt : d < 10 := hd d (by simp)
    have ih2 := ih (fun x hx => hd x (by simp [hx]))
    simp [takeDigits, charToDigit_digitToChar d hdlt, ih2]

theorem parseSign_digit (c : Char) (d : Nat) (l : List Char)
    (h : charToDigit c = some d) :
    parseSign (c :: l) = (false, c :: l) := by
  have h1 : c ≠ '-' := by rintro rfl; simp [charToDigit] at h
  have h2 : c ≠ '+' := by rintro rfl; simp [charToDigit] at h
  simp [parseSign, h1, h2]

theorem parseSign_sign_append (P : Prop) [Decidable P] (c : Char) (d : Nat)
    (l : List Char) (h : charToDigit c = some d) :
    parseSign ((if P then ['-'] else []) ++ c :: l) = (decide P, c :: l) := by
  by_cases hP : P
  · simp only [hP, if_pos, decide_eq_true hP]
    simp [parseSign]
  · simp only [hP, if_neg, not_false_iff, List.nil_append]
    rw [parseSign_digit c d l h]
    simp [hP]

theorem littleVal_natDigitsAux :
    ∀ fuel n : Nat, n ≤ fuel → littleVal (natDigitsAux fuel n) = n := by
  intro fuel
  induction fuel with
  | zero => intro n hn; interval_cases n; rfl
  | succ fuel ih =>
    intro n hn
    by_cases h0 : n = 0
    · simp [natDigitsAux, h0, littleVal]
    · have hlt : n / 10 ≤ fuel := by omega
      simp only [natDigitsAux, if_neg h0, littleVal, ih (n / 10) hlt]
      omega

theorem natDigitsAux_lt :
    ∀ fuel n d : Nat, d ∈ natDigitsAux fuel n → d < 10 := by
  intro fuel
  induction fuel with
  | zero => intro n d hd; simp [natDigitsAux] at hd
  | succ fuel ih =>
    intro n d hd
    by_cases h0 : n = 0
    · simp [natDigitsAux, h0] at hd
    · simp only [natDigitsAux, if_neg h0, List.mem_cons] at hd
      rcases hd with h | h
      · omega
      · exact ih _ _ h

theorem natLexDigits_lt (n d : Nat) (hd : d ∈ natLexDigits n) : d < 10 := by
  unfold natLexDigits at hd
  by_cases h0 : n = 0
  · simp [h0] at hd; omega
  · rw [if_neg h0, List.mem_reverse] at hd
    exact natDigitsAux_lt n n d hd

theorem natLexDigits_ne_nil (n : Nat) : natLexDigits n ≠ [] := by
  unfold natLexDigits
  by_cases h0 : n = 0
  · simp [h0]
  · rw [if_neg h0]
    obtain ⟨m, rfl⟩ : ∃ m, n = m + 1 := ⟨n - 1, by omega⟩
    simp [natDigitsAux]

theorem foldl_digitsVal (l : List Nat) :
    ∀ a : Nat, l.foldl (fun acc d => acc * 10 + d) a =
      a * 10 ^ l.length + l.foldl (fun acc d => acc * 10 + d) 0 := by
  induction l with
  | nil => intro a; simp
  | cons d l ih =>
    intro a
    simp only [List.foldl_cons, List.length_cons]
    rw [ih (a * 10 + d), ih (0 * 10 + d)]
    ring

theorem digitsVal_append (a b : List Nat) :
    digitsVal (a ++ b) = digitsVal a * 10 ^ b.length + digitsVal b := by
  unfold digitsVal
  rw [List.foldl_append]
  exact foldl_digitsVal b _

theorem digitsVal_reverse (l : List Nat) :
    digitsVal l.reverse = littleVal l := by
  induction l with
  | nil => rfl
  | cons d l ih =>
    simp only [List.reverse_cons, littleVal]
    rw [digitsVal_append, ih]
    have h1 : digitsVal [d] = d := by simp [digitsVal]
    have h2 : ([d] : List Nat).length = 1 := rfl
    rw [h1, h2]
    ring

theorem digitsVal_natLexDigits (n : Nat) : digitsVal (natLexDigits n) = n := by
  unfold natLexDigits
  by_cases h0 : n = 0
  · simp [h0, digitsVal]
  · rw [if_neg h0, digitsVal_reverse]
    exact littleVal_natDigitsAux n n le_rfl

theorem littleVal_padDigitsAux :
    ∀ k r : Nat, r < 10 ^ k → littleVal (padDigitsAux k r) = r := by
  intro k
  induction k with
  | zero => intro r hr; simp only [pow_zero] at hr; interval_cases r; rfl
  | succ k ih =>
    intro r hr
    have hr10 : r / 10 < 10 ^ k := by
      have : (10 : Nat) ^ (k + 1) = 10 ^ k * 10 := by ring
      omega
    simp only [padDigitsAux, littleVal, ih (r / 10) hr10]
    omega

theorem padDigitsAux_lt :
    ∀ k r d : Nat, d ∈ padDigitsAux k r → d < 10 := by
  intro k
  induction k with
  | zero => intro r d hd; simp [padDigitsAux] at hd
  | succ k ih =>
    intro r d hd
    simp only [padDigitsAux, List.mem_cons] at hd
    rcases hd with h | h
    · omega
    · exact ih _ _ h

theorem length_padDigitsAux : ∀ k r : Nat, (padDigitsAux k r).length = k := by
  intro k
  induction k with
  | zero => intro r; rfl
  | succ k ih => intro r; simp [padDigitsAux, ih]

theorem padDigits_lt (k r d : Nat) (hd : d ∈ padDigits k r) : d < 10 := by
  unfold padDigits at hd
  rw [List.mem_reverse] at hd
  exact padDigitsAux_lt k r d hd

theorem length_padDigits (k r : Nat) : (padDigits k r).length = k := by
  unfold padDigits
  rw [List.length_reverse]
  exact length_padDigitsAux k r

theorem digitsVal_padDigits (k r : Nat) (hr : r < 10 ^ k) :
    digitsVal (padDigits k r) = r := by
  unfold padDigits
  rw [digitsVal_reverse]
  exact littleVal_padDigitsAux k r hr

theorem strToInt64_intLexical (i : Int) (h1 : -(2 ^ 63) ≤ i) (h2 : i < 2 ^ 63) :
    strToInt64 (intLexical i) = some i := by
  obtain ⟨d, tail, hds⟩ : ∃ d tail, natLexDigits i.natAbs = d :: tail := by
    cases h : natLexDigits i.natAbs with
    | nil => exact absurd h (natLexDigits_ne_nil _)
    | cons d tail => exact ⟨d, tail, rfl⟩
  have hd10 : d < 10 := natLexDigits_lt i.natAbs d (by rw [hds]; simp)
  have hchar : charToDigit (digitToChar d) = some d := charToDigit_digitToChar d hd10
  have htail : ∀ x ∈ d :: tail, x < 10 := by
    intro x hx
    exact natLexDigits_lt i.natAbs x (by rw [hds]; exact hx)
  have hsign : parseSign (intLexical i).toList =
      (decide (i < 0), digitToChar d :: (tail.map digitToChar)) := by
    show parseSign ((if i < 0 then ['-'] else []) ++ (natLexDigits i.natAbs).map digitToChar) = _
    rw [hds, List.map_cons]
    exact parseSign_sign_append (i < 0) (digitToChar d) d _ hchar
  have htake : takeDigits (digitToChar d :: (tail.map digitToChar)) = (d :: tail, []) := by
    have := takeDigits_append (d :: tail) [] htail trivial
    simpa using this
  unfold strToInt64
  rw [hsign]
  simp only [htake]
  have hval : digitsVal (d :: tail) = i.natAbs := by
    rw [← hds, digitsVal_natLexDigits]
  rw [hval]
  have hne : ¬(d :: tail = [] ∨ ([] : List Char) ≠ []) := by simp
  rw [if_neg hne]
  have hmval : (if decide (i < 0) = true then -(i.natAbs : Int) else (i.natAbs : Int)) = i := by
    by_cases hneg : i < 0
    · rw [if_pos (by simpa using hneg)]
      omega
    · rw [if_neg (by simpa using hneg)]
      omega
  rw [hmval, if_pos ⟨h1, h2⟩]

theorem normAux_normalized : ∀ (k : Nat) (m : Int), (normAux m k).normalized := by
  intro k
  induction k with
  | zero => intro m; exact Or.inl rfl
  | succ k ih =>
    intro m
    by_cases h : m % 10 = 0
    · simpa [normAux, h] using ih (m / 10)
    · simp only [normAux, if_neg h]
      exact Or.inr h

theorem normalize_normalized (d : DoubleVal) : d.normalize.normalized :=
  normAux_normalized d.frac d.mant

theorem normalize_of_normalized (d : DoubleVal) (h : d.normalized) :
    d.normalize = d := by
  obtain ⟨m, k⟩ := d
  simp only [DoubleVal.normalized] at h
  cases k with
  | zero => rfl
  | succ k =>
    rcases h with h | h
    · exact absurd h (by simp)
    · simp only [DoubleVal.normalize, normAux, if_neg h]

theorem charToDigit_dot : charToDigit '.' = none := by decide

theorem noDigitHead_dot (l : List Char) : noDigitHead ('.' :: l) :=
  charToDigit_dot

theorem strToDouble_renderChars (p : DoubleVal) (hp : p.normalized) :
    strToDouble (String.mk (renderChars p)) = some p := by
  obtain ⟨m, k⟩ := p
  cases k with
  | zero =>
    obtain ⟨d, tail, hds⟩ : ∃ d tail, natLexDigits m.natAbs = d :: tail := by
      cases h : natLexDigits m.natAbs with
      | nil => exact absurd h (natLexDigits_ne_nil _)
      | cons d tail => exact ⟨d, tail, rfl⟩
    have hd10 : d < 10 := natLexDigits_lt m.natAbs d (by rw [hds]; simp)
    have hchar : charToDigit (digitToChar d) = some d := charToDigit_digitToChar d hd10
    have htail : ∀ x ∈ d :: tail, x < 10 := by
      intro x hx
      exact natLexDigits_lt m.natAbs x (by rw [hds]; exact hx)
    have hrc : renderChars ⟨m, 0⟩ =
        (if m < 0 then ['-'] else []) ++ (digitToChar d :: (tail.map digitToChar)) := by
      show (if m < 0 then ['-'] else []) ++ (natLexDigits m.natAbs).map digitToChar = _
      rw [hds, List.map_cons]
    have hsign : parseSign (String.mk (renderChars ⟨m, 0⟩)).toList =
        (decide (m < 0), digitToChar d :: (tail.map digitToChar)) := by
      show parseSign (renderChars ⟨m, 0⟩) = _
      rw [hrc]
      exact parseSign_sign_append (m < 0) (digitToChar d) d _ hchar
    have htake : takeDigits (digitToChar d :: (tail.map digitToChar)) = (d :: tail, []) := by
      have := takeDigits_append (d :: tail) [] htail trivial
      simpa using this
    unfold strToDouble
    rw [hsign]
    simp only [htake]
    have hval : digitsVal (d :: tail ++ []) = m.natAbs := by
      rw [List.append_nil, ← hds, digitsVal_natLexDigits]
    rw [hval]
    have hmval : (if decide (m < 0) = true then -(m.natAbs : Int) else (m.natAbs : Int)) = m := by
      by_cases hneg : m < 0
      · rw [if_pos (by simpa using hneg)]
        omega
      · rw [if_neg (by simpa using hneg)]
        omega
    rw [hmval]
    simp [scaleNorm]
  | succ k =>
    have hm : m % 10 ≠ 0 := by
      rcases hp with h | h
      · exact absurd h (by simp)
      · exact h
    have hpow : 0 < 10 ^ (k + 1) := Nat.pos_pow_of_pos _ (by omega)
    obtain ⟨d, tail, hds⟩ :
        ∃ d tail, natLexDigits (m.natAbs / 10 ^ (k + 1)) = d :: tail := by
      cases h : natLexDigits (m.natAbs / 10 ^ (k + 1)) with
      | nil => exact absurd h (natLexDigits_ne_nil _)
      | cons d tail => exact ⟨d, tail, rfl⟩
    have hd10 : d < 10 := natLexDigits_lt _ d (by rw [hds]; simp)
    have hchar : charToDigit (digitToChar d) = some d := charToDigit_digitToChar d hd10
    have htail : ∀ x ∈ d :: tail, x < 10 := by
      intro x hx
      exact natLexDigits_lt _ x (by rw [hds]; exact hx)
    have hfrac : ∀ x ∈ padDigits (k + 1) (m.natAbs % 10 ^ (k + 1)), x < 10 := by
      intro x hx
      exact padDigits_lt _ _ x hx
    have hrc : renderChars ⟨m, k + 1⟩ =
        (if m < 0 then ['-'] else []) ++
          (digitToChar d ::
            (tail.map digitToChar ++
              '.' :: (padDigits (k + 1) (m.natAbs % 10 ^ (k + 1))).map digitToChar)) := by
      simp only [renderChars, if_neg (Nat.succ_ne_zero k)]
      rw [hds, List.map_cons, List.cons_append]
    have hsign : parseSign (String.mk (renderChars ⟨m, k + 1⟩)).toList =
        (decide (m < 0),
          digitToChar d ::
            (tail.map digitToChar ++
              '.' :: (padDigits (k + 1) (m.natAbs % 10 ^ (k + 1))).map digitToChar)) := by
      show parseSign (renderChars ⟨m, k + 1⟩) = _
      rw [hrc]
      exact parseSign_sign_append (m < 0) (digitToChar d) d _ hchar
    have htake : takeDigits
        (digitToChar d ::
          (tail.map digitToChar ++
            '.' :: (padDigits (k + 1) (m.natAbs % 10 ^ (k + 1))).map digitToChar)) =
        (d :: tail, '.' :: (padDigits (k + 1) (m.natAbs % 10 ^ (k + 1))).map digitToChar) := by
      have := takeDigits_append (d :: tail)
        ('.' :: (padDigits (k + 1) (m.natAbs % 10 ^ (k + 1))).map digitToChar)
        htail (noDigitHead_dot _)
      simpa using this
    have htake2 : takeDigits ((padDigits (k + 1) (m.natAbs % 10 ^ (k + 1))).map digitToChar) =
        (padDigits (k + 1) (m.natAbs % 10 ^ (k + 1)), []) := by
      have := takeDigits_append (padDigits (k + 1) (m.natAbs % 10 ^ (k + 1))) [] hfrac trivial
      simpa using this
    unfold strToDouble
    rw [hsign]
    simp only [htake, htake2]
    have hval : digitsVal (d :: tail ++ padDigits (k + 1) (m.natAbs % 10 ^ (k + 1))) =
        m.natAbs := by
      rw [← hds, digitsVal_append, digitsVal_natLexDigits, length_padDigits,
        digitsVal_padDigits _ _ (Nat.mod_lt _ hpow)]
      exact Nat.div_add_mod' _ _
    rw [hval]
    have hne : ¬(d :: tail = [] ∧ padDigits (k + 1) (m.natAbs % 10 ^ (k + 1)) = []) := by simp
    rw [if_neg hne]
    have hmval : (if decide (m < 0) = true then -(m.natAbs : Int) else (m.natAbs : Int)) = m := by
      by_cases hneg : m < 0
      · rw [if_pos (by simpa using hneg)]
        omega
      · rw [if_neg (by simpa using hneg)]
        omega
    rw [hmval, length_padDigits]
    have hscale : scaleNorm m ((k + 1 : Nat) : Int) = ⟨m, k + 1⟩ := by
      unfold scaleNorm
      rw [if_neg (by omega)]
      have : ((k + 1 : Nat) : Int).toNat = k + 1 := by omega
      rw [this]
      simp only [normAux, if_neg hm]
    rw [hscale]

theorem strToDouble_doubleLexical (d : DoubleVal) :
    strToDouble (doubleLexical d) = some d.normalize :=
  strToDouble_renderChars d.normalize (normalize_normalized d)

/-! ### Helper lemmas on the StampedValue operations -/

theorem getValue_of_str (v : StampedValue) (s : String)
    (h : v.value = some (Element.str s)) : v.getValue = Except.ok s := by
  simp [StampedValue.getValue, StampedValue.validateAccess, h]

theorem getValue_of_int (v : StampedValue) (i : Int)
    (h : v.value = some (Element.int i)) : v.getValue = Except.ok (intLexical i) := by
  simp [StampedValue.getValue, StampedValue.validateAccess, h]

theorem getValue_of_bool (v : StampedValue) (b : Bool)
    (h : v.value = some (Element.bool b)) :
    v.getValue = Except.ok (if b then "1" else "0") := by
  simp [StampedValue.getValue, StampedValue.validateAccess, h]

theorem getValue_of_real (v : StampedValue) (d : DoubleVal)
    (h : v.value = some (Element.real d)) :
    v.getValue = Except.ok (doubleLexical d) := by
  simp [StampedValue.getValue, StampedValue.validateAccess, h]

theorem create_ok (name : String) (e : Element) (h : e.typeOf.isPrimitive = true) :
    StampedValue.create name (some e) = Except.ok ⟨name, some e⟩ := by
  simp [StampedValue.create, StampedValue.validateConstruct, h]

theorem toElement_str (v : StampedValue) (s : String) (h : v.getValue = Except.ok s) :
    v.toElement ElemType.string = Except.ok (Element.str s) := by
  simp [StampedValue.toElement, h]

theorem toElement_int (v : StampedValue) (s : String) (i : Int)
    (h : v.getValue = Except.ok s) (hi : strToInt64 s = some i) :
    v.toElement ElemType.integer = Except.ok (Element.int i) := by
  simp [StampedValue.toElement, h, hi]

theorem toElement_int_fail (v : StampedValue) (s : String)
    (h : v.getValue = Except.ok s) (hi : strToInt64 s = none) :
    v.toElement ElemType.integer = Except.error KeaError.badValue := by
  simp [StampedValue.toElement, h, hi]

theorem toElement_real (v : StampedValue) (s : String) (d : DoubleVal)
    (h : v.getValue = Except.ok s) (hd : strToDouble s = some d) :
    v.toElement ElemType.real = Except.ok (Element.real d) := by
  simp [StampedValue.toElement, h, hd]

theorem toElement_real_fail (v : StampedValue) (s : String)
    (h : v.getValue = Except.ok s) (hd : strToDouble s = none) :
    v.toElement ElemType.real = Except.error KeaError.badValue := by
  simp [StampedValue.toElement, h, hd]

theorem toElement_bool_fail (v : StampedValue) (s : String)
    (h : v.getValue = Except.ok s) (h1 : s ≠ "true") (h2 : s ≠ "false") :
    v.toElement ElemType.boolean = Except.error KeaError.badValue := by
  simp [StampedValue.toElement, h, h1, h2]

theorem foldl_updStep {ρ : Type} (mk hn : ρ → String) (rows : List ρ) :
    ∀ st : UpdState,
      (rows.foldl (updStep mk hn) st).stmts =
        st.stmts ++ (rows.filter (fun r => !(hn r == ""))).map mk ∧
      (rows.foldl (updStep mk hn) st).updateCnt =
        st.updateCnt + (rows.filter (fun r => !(hn r == ""))).length := by
  induction rows with
  | nil => intro st; simp
  | cons r rows ih =>
    intro st
    by_cases h : hn r = ""
    · have hstep : updStep mk hn st r = ⟨st.lineCnt + 1, st.updateCnt, st.stmts⟩ := by
        simp [updStep, h]
      rw [List.foldl_cons, hstep]
      obtain ⟨h1, h2⟩ := ih ⟨st.lineCnt + 1, st.updateCnt, st.stmts⟩
      refine ⟨?_, ?_⟩
      · rw [h1]; simp [List.filter_cons, h]
      · rw [h2]; simp [List.filter_cons, h]
    · have hstep : updStep mk hn st r =
          ⟨st.lineCnt + 1, st.updateCnt + 1, st.stmts ++ [mk r]⟩ := by
        simp [updStep, h]
      rw [List.foldl_cons, hstep]
      obtain ⟨h1, h2⟩ := ih ⟨st.lineCnt + 1, st.updateCnt + 1, st.stmts ++ [mk r]⟩
      refine ⟨?_, ?_⟩
      · rw [h1]; simp [List.filter_cons, h]
      · rw [h2]; simp [List.filter_cons, h]; omega

/-! ### Claim theorems -/

/-- C3 (confirmed): `StampedValue::create(name, value)` fails with
`BadValue` when the value is absent (null), fails with `TypeError` when
the value's type is not one of the four supported primitive types, and
succeeds otherwise. -/
theorem c3_create_validation (name : String) :
    StampedValue.create name none = Except.error KeaError.badValue ∧
    (∀ e : Element, e.typeOf.isPrimitive = false →
      StampedValue.create name (some e) = Except.error KeaError.typeError) ∧
    (∀ e : Element, e.typeOf.isPrimitive = true →
      StampedValue.create name (some e) = Except.ok ⟨name, some e⟩) := by
  refine ⟨rfl, ?_, ?_⟩
  · intro e he
    simp [StampedValue.create, StampedValue.validateConstruct, he]
  · intro e he
    exact create_ok name e he

/-- C3 witness: the validation outcomes at concrete inputs. -/
theorem c3_create_validation_witness :
    StampedValue.create "scope" (some Element.mapE) = Except.error KeaError.typeError ∧
    StampedValue.create "renew-timer" (some (Element.int 1000)) =
      Except.ok ⟨"renew-timer", some (Element.int 1000)⟩ :=
  ⟨(c3_create_validation "scope").2.1 Element.mapE rfl,
   (c3_create_validation "renew-timer").2.2 (Element.int 1000) rfl⟩

/-- C4 (confirmed): `StampedValue::getType` fails with
`InvalidOperation` if and only if the stored value is absent; when the
value is present it returns that value's type. -/
theorem c4_getType (v : StampedValue) :
    (v.getType = Except.error KeaError.invalidOperation ↔ v.value = none) ∧
    (∀ e, v.value = some e → v.getType = Except.ok e.typeOf) := by
  refine ⟨⟨?_, ?_⟩, ?_⟩
  · intro h
    cases hv : v.value with
    | none => rfl
    | some e => simp [StampedValue.getType, hv] at h
  · intro h
    simp [StampedValue.getType, h]
  · intro e he
    simp [StampedValue.getType, he]

/-- C4 witness: `getType` at a present and at an absent value. -/
theorem c4_getType_witness :
    StampedValue.getType ⟨"renew-timer", some (Element.int 7)⟩ =
      Except.ok ElemType.integer ∧
    StampedValue.getType ⟨"empty", none⟩ = Except.error KeaError.invalidOperation :=
  ⟨(c4_getType ⟨"renew-timer", some (Element.int 7)⟩).2 (Element.int 7) rfl,
   (c4_getType ⟨"empty", none⟩).1.mpr rfl⟩

/-- C7 (confirmed, spec-modelled): `createUpdateSubnet6` invoked with
the UNASSIGNED server selector fails with `NotImplemented` for every
subnet and every configuration state; the error result carries no
successor state, so no configuration state is changed. -/
theorem c7_unassigned_rejected (subnet : Subnet6) (state : List Subnet6) :
    createUpdateSubnet6 ServerSelector.unassigned subnet state =
      Except.error KeaError.notImplemented := rfl

/-- C9 (confirmed): the one-argument `create(name)` succeeds with an
absent value, and every accessor on the resulting object fails with
`InvalidOperation`. -/
theorem c9_name_only_create (name : String) :
    StampedValue.createNameOnly name = Except.ok ⟨name, none⟩ ∧
    StampedValue.getType ⟨name, none⟩ = Except.error KeaError.invalidOperation ∧
    StampedValue.getValue ⟨name, none⟩ = Except.error KeaError.invalidOperation ∧
    StampedValue.getSignedIntegerValue ⟨name, none⟩ =
      Except.error KeaError.invalidOperation ∧
    StampedValue.getBoolValue ⟨name, none⟩ = Except.error KeaError.invalidOperation ∧
    StampedValue.getDoubleValue ⟨name, none⟩ = Except.error KeaError.invalidOperation :=
  ⟨rfl, rfl, rfl, rfl, rfl, rfl⟩

/-- C8 (confirmed): each upgrade-script loop emits exactly one update
statement per exported row with a non-empty hostname — setting the
hosts table's `lower_case_hostname` column, resp. the lease tables'
`hostname` column, to the lowercase form of the stored hostname — and
emits none for rows with an empty hostname. -/
theorem c8_hostname_lowercasing (hosts : List HostRow) (l4 l6 : List LeaseRow) :
    (update_host_data hosts).stmts =
      (hosts.filter (fun r => !(r.hostname == ""))).map mkHostUpdate ∧
    (update_host_data hosts).updateCnt =
      (hosts.filter (fun r => !(r.hostname == ""))).length ∧
    (update_lease4_data l4).stmts =
      (l4.filter (fun r => !(r.hostname == ""))).map mkLease4Update ∧
    (update_lease4_data l4).updateCnt =
      (l4.filter (fun r => !(r.hostname == ""))).length ∧
    (update_lease6_data l6).stmts =
      (l6.filter (fun r => !(r.hostname == ""))).map mkLease6Update ∧
    (update_lease6_data l6).updateCnt =
      (l6.filter (fun r => !(r.hostname == ""))).length := by
  obtain ⟨h1, h2⟩ := foldl_updStep mkHostUpdate HostRow.hostname hosts ⟨0, 0, []⟩
  obtain ⟨h3, h4⟩ := foldl_updStep mkLease4Update LeaseRow.hostname l4 ⟨0, 0, []⟩
  obtain ⟨h5, h6⟩ := foldl_updStep mkLease6Update LeaseRow.hostname l6 ⟨0, 0, []⟩
  exact ⟨by simpa using h1, by simpa using h2, by simpa using h3,
    by simpa using h4, by simpa using h5, by simpa using h6⟩

/-- C1 counterexample: a stored boolean `true` is rendered as `"1"`,
not `"true"`, by the string conversion. -/
theorem c1_counterexample :
    StampedValue.getValue ⟨"fqdn-fwd", some (Element.bool true)⟩ = Except.ok "1" ∧
    ("1" : String) ≠ "true" :=
  ⟨rfl, by decide⟩

/-- C1 (amended): the textual-value component produced when converting
the stored value to a string is `"1"` when a boolean value is true and
`"0"` when it is false; integers and reals serialize via their decimal
lexical forms. -/
theorem c1_textual_serialization (v : StampedValue) :
    (∀ b, v.value = some (Element.bool b) →
      v.getValue = Except.ok (if b then "1" else "0")) ∧
    (∀ i, v.value = some (Element.int i) → v.getValue = Except.ok (intLexical i)) ∧
    (∀ d, v.value = some (Element.real d) →
      v.getValue = Except.ok (doubleLexical d)) :=
  ⟨fun b h => getValue_of_bool v b h, fun i h => getValue_of_int v i h,
   fun d h => getValue_of_real v d h⟩

/-- C1 witness: the serialization at concrete boolean and integer
values. -/
theorem c1_textual_serialization_witness :
    StampedValue.getValue ⟨"flag", some (Element.bool false)⟩ = Except.ok "0" ∧
    StampedValue.getValue ⟨"t1", some (Element.int 1000)⟩ =
      Except.ok (intLexical 1000) :=
  ⟨(c1_textual_serialization ⟨"flag", some (Element.bool false)⟩).1 false rfl,
   (c1_textual_serialization ⟨"t1", some (Element.int 1000)⟩).2.1 1000 rfl⟩

/-- C2 (confirmed): with a value present, the typed accessors fail with
`TypeError` exactly when the stored type does not match the requested
one, `getValue` succeeds for any of the four primitive types (boolean
rendered as `"1"`/`"0"`, integers and reals lexically cast), and the
`("renew-timer", integer, 1000)` scenario behaves as specified. -/
theorem c2_typed_accessors :
    (∀ (v : StampedValue) (e : Element), v.value = some e →
      (v.getSignedIntegerValue = Except.error KeaError.typeError ↔
        e.typeOf ≠ ElemType.integer) ∧
      (v.getBoolValue = Except.error KeaError.typeError ↔
        e.typeOf ≠ ElemType.boolean) ∧
      (v.getDoubleValue = Except.error KeaError.typeError ↔
        e.typeOf ≠ ElemType.real) ∧
      (e.typeOf.isPrimitive = true → ∃ s, v.getValue = Except.ok s)) ∧
    (∀ (v : StampedValue) (i : Int), v.value = some (Element.int i) →
      v.getSignedIntegerValue = Except.ok i) ∧
    (∀ (v : StampedValue) (b : Bool), v.value = some (Element.bool b) →
      v.getBoolValue = Except.ok b) ∧
    (∀ (v : StampedValue) (d : DoubleVal), v.value = some (Element.real d) →
      v.getDoubleValue = Except.ok d) ∧
    (∃ rv, StampedValue.create "renew-timer" (some (Element.int 1000)) =
        Except.ok rv ∧
      rv.getSignedIntegerValue = Except.ok 1000 ∧
      rv.getValue = Except.ok "1000" ∧
      rv.getBoolValue = Except.error KeaError.typeError) := by
  refine ⟨?_, ?_, ?_, ?_, ?_⟩
  · intro v e he
    refine ⟨?_, ?_, ?_, ?_⟩
    · cases e <;>
        simp [StampedValue.getSignedIntegerValue, StampedValue.validateAccess, he,
          Element.typeOf]
    · cases e <;>
        simp [StampedValue.getBoolValue, StampedValue.validateAccess, he,
          Element.typeOf]
    · cases e <;>
        simp [StampedValue.getDoubleValue, StampedValue.validateAccess, he,
          Element.typeOf]
    · intro hprim
      cases e with
      | str s => exact ⟨s, getValue_of_str v s he⟩
      | int i => exact ⟨intLexical i, getValue_of_int v i he⟩
      | bool b => exact ⟨if b then "1" else "0", getValue_of_bool v b he⟩
      | real d => exact ⟨doubleLexical d, getValue_of_real v d he⟩
      | listE => exact absurd hprim (by simp [Element.typeOf, ElemType.isPrimitive])
      | mapE => exact absurd hprim (by simp [Element.typeOf, ElemType.isPrimitive])
      | nullE => exact absurd hprim (by simp [Element.typeOf, ElemType.isPrimitive])
  · intro v i he
    simp [StampedValue.getSignedIntegerValue, StampedValue.validateAccess, he,
      Element.typeOf]
  · intro v b he
    simp [StampedValue.getBoolValue, StampedValue.validateAccess, he, Element.typeOf]
  · intro v d he
    simp [StampedValue.getDoubleValue, StampedValue.validateAccess, he, Element.typeOf]
  · refine ⟨⟨"renew-timer", some (Element.int 1000)⟩, rfl, rfl, ?_, rfl⟩
    have : intLexical 1000 = "1000" := by decide
    rw [getValue_of_int ⟨"renew-timer", some (Element.int 1000)⟩ 1000 rfl, this]

/-- C2 witness: the accessor outcomes at a concrete integer-typed
stamped value. -/
theorem c2_typed_accessors_witness :
    StampedValue.getBoolValue ⟨"renew-timer", some (Element.int 1000)⟩ =
      Except.error KeaError.typeError ∧
    StampedValue.getSignedIntegerValue ⟨"renew-timer", some (Element.int 1000)⟩ =
      Except.ok 1000 :=
  ⟨(c2_typed_accessors.1 ⟨"renew-timer", some (Element.int 1000)⟩
      (Element.int 1000) rfl).2.1.mpr (by decide),
   c2_typed_accessors.2.1 ⟨"renew-timer", some (Element.int 1000)⟩ 1000 rfl⟩

/-- C5 (confirmed): `toElement` parses the stored string representation
back into the requested primitive and fails with `BadValue` exactly on
lexical failure, for each of the four primitive requested types. -/
theorem c5_toElement_lexical (v : StampedValue) (s : String)
    (h : v.getValue = Except.ok s) :
    (v.toElement ElemType.string = Except.ok (Element.str s)) ∧
    (∀ i, strToInt64 s = some i →
      v.toElement ElemType.integer = Except.ok (Element.int i)) ∧
    (strToInt64 s = none →
      v.toElement ElemType.integer = Except.error KeaError.badValue) ∧
    (s = "true" → v.toElement ElemType.boolean = Except.ok (Element.bool true)) ∧
    (s = "false" → v.toElement ElemType.boolean = Except.ok (Element.bool false)) ∧
    (s ≠ "true" → s ≠ "false" →
      v.toElement ElemType.boolean = Except.error KeaError.badValue) ∧
    (∀ d, strToDouble s = some d →
      v.toElement ElemType.real = Except.ok (Element.real d)) ∧
    (strToDouble s = none →
      v.toElement ElemType.real = Except.error KeaError.badValue) := by
  refine ⟨toElement_str v s h, ?_, ?_, ?_, ?_, ?_, ?_, ?_⟩
  · intro i hi
    exact toElement_int v s i h hi
  · intro hi
    exact toElement_int_fail v s h hi
  · intro hs
    simp [StampedValue.toElement, h, hs]
  · intro hs
    simp [StampedValue.toElement, h, hs]
  · intro h1 h2
    exact toElement_bool_fail v s h h1 h2
  · intro d hd
    exact toElement_real v s d h hd
  · intro hd
    exact toElement_real_fail v s h hd

/-- C5 witness: parsing outcomes at concrete stored strings. -/
theorem c5_toElement_lexical_witness :
    StampedValue.toElement ⟨"t1", some (Element.str "7")⟩ ElemType.integer =
      Except.ok (Element.int 7) ∧
    StampedValue.toElement ⟨"t2", some (Element.str "abc")⟩ ElemType.integer =
      Except.error KeaError.badValue ∧
    StampedValue.toElement ⟨"t3", some (Element.str "true")⟩ ElemType.boolean =
      Except.ok (Element.bool true) ∧
    StampedValue.toElement ⟨"t4", some (Element.str "1.5")⟩ ElemType.real =
      Except.ok (Element.real ⟨15, 1⟩) :=
  ⟨(c5_toElement_lexical ⟨"t1", some (Element.str "7")⟩ "7" rfl).2.1 7 (by decide),
   (c5_toElement_lexical ⟨"t2", some (Element.str "abc")⟩ "abc" rfl).2.2.1 (by decide),
   (c5_toElement_lexical ⟨"t3", some (Element.str "true")⟩ "true" rfl).2.2.2.1 rfl,
   (c5_toElement_lexical ⟨"t4", some (Element.str "1.5")⟩ "1.5" rfl).2.2.2.2.2.2.1
     ⟨15, 1⟩ (by decide)⟩

/-- C10 (confirmed): `getValue` never fails with `BadValue` — the
to-string lexical casts are total — and for every stamped value built by
the validating `create` the string conversion succeeds. -/
theorem c10_getValue_never_badValue :
    (∀ v : StampedValue, v.getValue ≠ Except.error KeaError.badValue) ∧
    (∀ (name : String) (value : Option Element) (v : StampedValue),
      StampedValue.create name value = Except.ok v →
        ∃ s, v.getValue = Except.ok s) := by
  constructor
  · intro v
    cases hv : v.value with
    | none => simp [StampedValue.getValue, StampedValue.validateAccess, hv]
    | some e =>
      cases e <;>
        simp [StampedValue.getValue, StampedValue.validateAccess, hv]
  · intro name value v hc
    cases value with
    | none => simp [StampedValue.create, StampedValue.validateConstruct] at hc
    | some e =>
      cases e with
      | str s =>
        rw [create_ok name (Element.str s) rfl] at hc
        obtain rfl : (⟨name, some (Element.str s)⟩ : StampedValue) = v :=
          Except.ok.inj hc
        exact ⟨s, getValue_of_str _ s rfl⟩
      | int i =>
        rw [create_ok name (Element.int i) rfl] at hc
        obtain rfl : (⟨name, some (Element.int i)⟩ : StampedValue) = v :=
          Except.ok.inj hc
        exact ⟨intLexical i, getValue_of_int _ i rfl⟩
      | bool b =>
        rw [create_ok name (Element.bool b) rfl] at hc
        obtain rfl : (⟨name, some (Element.bool b)⟩ : StampedValue) = v :=
          Except.ok.inj hc
        exact ⟨if b then "1" else "0", getValue_of_bool _ b rfl⟩
      | real d =>
        rw [create_ok name (Element.real d) rfl] at hc
        obtain rfl : (⟨name, some (Element.real d)⟩ : StampedValue) = v :=
          Except.ok.inj hc
        exact ⟨doubleLexical d, getValue_of_real _ d rfl⟩
      | listE => simp [StampedValue.create, StampedValue.validateConstruct,
          Element.typeOf, ElemType.isPrimitive] at hc
      | mapE => simp [StampedValue.create, StampedValue.validateConstruct,
          Element.typeOf, ElemType.isPrimitive] at hc
      | nullE => simp [StampedValue.create, StampedValue.validateConstruct,
          Element.typeOf, ElemType.isPrimitive] at hc

/-- C10 witness: a created value whose string conversion succeeds. -/
theorem c10_getValue_never_badValue_witness :
    ∃ s, StampedValue.getValue ⟨"renew-timer", some (Element.int 1000)⟩ =
      Except.ok s :=
  c10_getValue_never_badValue.2 "renew-timer" (some (Element.int 1000))
    ⟨"renew-timer", some (Element.int 1000)⟩ rfl

/-- C6 counterexample: the round-trip property fails for a boolean
stamped value — `to_element(boolean)` already fails with `BadValue`,
because the textual form of a stored boolean is `"1"`/`"0"` while
`toElement` only accepts `"true"`/`"false"`. -/
theorem c6_roundtrip_counterexample :
    ¬ roundTrips ⟨"fixed", some (Element.bool true)⟩ ElemType.boolean := by
  rintro ⟨e, he, -⟩
  rw [show StampedValue.toElement ⟨"fixed", some (Element.bool true)⟩
      ElemType.boolean = Except.error KeaError.badValue from rfl] at he
  exact Except.noConfusion he

/-- C6 (amended): the round-trip property holds for the string, integer
(within the `int64_t` range) and real primitive types; for boolean
stamped values `to_element(boolean)` fails with `BadValue`, so the
round-trip fails for them. -/
theorem c6_roundtrip (v : StampedValue) :
    (∀ s, v.value = some (Element.str s) → roundTrips v ElemType.string) ∧
    (∀ i, v.value = some (Element.int i) → -(2 ^ 63) ≤ i → i < 2 ^ 63 →
      roundTrips v ElemType.integer) ∧
    (∀ d, v.value = some (Element.real d) → roundTrips v ElemType.real) ∧
    (∀ b, v.value = some (Element.bool b) →
      v.toElement ElemType.boolean = Except.error KeaError.badValue) := by
  refine ⟨?_, ?_, ?_, ?_⟩
  · intro s hv
    refine ⟨Element.str s, toElement_str v s (getValue_of_str v s hv),
      ⟨v.name, some (Element.str s)⟩, create_ok v.name _ rfl, ?_⟩
    exact toElement_str _ s (getValue_of_str _ s rfl)
  · intro i hv h1 h2
    have hrt : strToInt64 (intLexical i) = some i := strToInt64_intLexical i h1 h2
    refine ⟨Element.int i,
      toElement_int v (intLexical i) i (getValue_of_int v i hv) hrt,
      ⟨v.name, some (Element.int i)⟩, create_ok v.name _ rfl, ?_⟩
    exact toElement_int _ (intLexical i) i (getValue_of_int _ i rfl) hrt
  · intro d hv
    have hrt1 : strToDouble (doubleLexical d) = some d.normalize :=
      strToDouble_doubleLexical d
    have hrt2 : strToDouble (doubleLexical d.normalize) = some d.normalize := by
      rw [strToDouble_doubleLexical d.normalize,
        normalize_of_normalized d.normalize (normalize_normalized d)]
    refine ⟨Element.real d.normalize,
      toElement_real v (doubleLexical d) d.normalize (getValue_of_real v d hv) hrt1,
      ⟨v.name, some (Element.real d.normalize)⟩, create_ok v.name _ rfl, ?_⟩
    exact toElement_real _ (doubleLexical d.normalize) d.normalize
      (getValue_of_real _ d.normalize rfl) hrt2
  · intro b hv
    have hgv := getValue_of_bool v b hv
    cases b with
    | true => exact toElement_bool_fail v "1" hgv (by decide) (by decide)
    | false => exact toElement_bool_fail v "0" hgv (by decide) (by decide)

/-- C6 witness: round trips at concrete string, integer and real
values. -/
theorem c6_roundtrip_witness :
    roundTrips ⟨"hostname", some (Element.str "pc1")⟩ ElemType.string ∧
    roundTrips ⟨"renew-timer", some (Element.int 1000)⟩ ElemType.integer ∧
    roundTrips ⟨"ratio", some (Element.real ⟨1500, 2⟩)⟩ ElemType.real :=
  ⟨(c6_roundtrip ⟨"hostname", some (Element.str "pc1")⟩).1 "pc1" rfl,
   (c6_roundtrip ⟨"renew-timer", some (Element.int 1000)⟩).2.1 1000 rfl
     (by decide) (by decide),
   (c6_roundtrip ⟨"ratio", some (Element.real ⟨1500, 2⟩)⟩).2.2.1 ⟨1500, 2⟩ rfl⟩

end Kea
